import Mathlib

/-!
Verification of the GML feature-decoding base class (`src/unnamed/part_000`,
module `ol/format/GMLBase`) and of the spherical-length contract of
`ol/Sphere`.  The DOM fragment the decoder walks is modelled by `XmlNode`;
JavaScript values that can be `undefined`/`null` are modelled with `Option`
and dedicated sum types, and the one runtime exception the decoder can raise
(a property access on a `null` `firstElementChild`) is modelled with
`Except Unit`.
-/

/-- DOM node as seen by the decoder: `nodeType` (1 = element, 3 = text,
4 = CDATA), `namespaceURI` (`""` models DOM `null`), `nodeName`
(possibly prefixed), `localName`, attributes as `(namespaceURI, name, value)`
triples, child nodes, and character data for text/CDATA nodes. -/
inductive XmlNode : Type where
  | mk (nodeType : Nat) (namespaceURI : String) (nodeName : String)
      (localName : String) (attributes : List (String × String × String))
      (children : List XmlNode) (data : String)

def XmlNode.nodeType : XmlNode → Nat
  | .mk t _ _ _ _ _ _ => t

def XmlNode.namespaceURI : XmlNode → String
  | .mk _ ns _ _ _ _ _ => ns

def XmlNode.nodeName : XmlNode → String
  | .mk _ _ nn _ _ _ _ => nn

def XmlNode.localName : XmlNode → String
  | .mk _ _ _ ln _ _ _ => ln

def XmlNode.attributes : XmlNode → List (String × String × String)
  | .mk _ _ _ _ a _ _ => a

def XmlNode.children : XmlNode → List XmlNode
  | .mk _ _ _ _ _ c _ => c

def XmlNode.data : XmlNode → String
  | .mk _ _ _ _ _ _ d => d

/-- Element children, in document order: the `firstElementChild` /
`nextElementSibling` iteration used throughout the source. -/
def XmlNode.elementChildren (n : XmlNode) : List XmlNode :=
  n.children.filter (fun c => c.nodeType == 1)

/-- DOM `firstElementChild`; `none` models `null`. -/
def XmlNode.firstElementChild (n : XmlNode) : Option XmlNode :=
  n.elementChildren.head?

/-- DOM `getAttribute`; `none` models `null`. -/
def XmlNode.getAttribute (n : XmlNode) (name : String) : Option String :=
  (n.attributes.find? (fun a => a.2.1 == name)).map (fun a => a.2.2)

/-- DOM `getAttributeNS` as used by `ol/xml`'s `getAttributeNS`. -/
def XmlNode.getAttributeNS (n : XmlNode) (ns name : String) : Option String :=
  (n.attributes.find? (fun a => a.1 == ns && a.2.1 == name)).map (fun a => a.2.2)

/-- Convenience constructor for an element node. -/
def XmlNode.elem (ns nodeName localName : String)
    (attrs : List (String × String × String)) (children : List XmlNode) :
    XmlNode :=
  .mk 1 ns nodeName localName attrs children ""

/-- Convenience constructor for a text node. -/
def XmlNode.text (s : String) : XmlNode :=
  .mk 3 "" "" "" [] [] s

/-- Convenience constructor for a CDATA section. -/
def XmlNode.cdata (s : String) : XmlNode :=
  .mk 4 "" "" "" [] [] s

mutual

/-- `ol/xml`'s `getAllTextContent` (no whitespace normalisation): text and
CDATA nodes contribute their character data, other nodes recurse over their
children. -/
def getAllTextContent : XmlNode → String
  | .mk t _ _ _ _ children d =>
    if t == 3 || t == 4 then d else getAllTextContentList children

/-- Concatenation of `getAllTextContent` over a child list. -/
def getAllTextContentList : List XmlNode → String
  | [] => ""
  | c :: cs => getAllTextContent c ++ getAllTextContentList cs

end

/-- The GML namespace, `GMLBase.GMLNS`. -/
def GMLNS : String := "http://www.opengis.net/gml"

/-- The WFS namespace tested in `readFeaturesInternal`. -/
def WFSNS : String := "http://www.opengis.net/wfs"

/-- Whitespace characters of `GMLBase.ONLY_WHITESPACE_RE_` (`[\s\xa0]`):
the ASCII class plus the non-breaking space.  (The additional exotic Unicode
space code points matched by the JavaScript `\s` class play no role in any
claim and are omitted.) -/
def isWsChar (c : Char) : Bool :=
  c == ' ' || c == '\t' || c == '\n' || c == '\r' ||
    c == '\x0b' || c == '\x0c' || c == '\xa0'

/-- `GMLBase.ONLY_WHITESPACE_RE_.test`: `true` iff the string consists only
of whitespace (in particular for `""`). -/
def isOnlyWhitespace (s : String) : Bool :=
  s.data.all isWsChar

/-- Splits a character list into maximal whitespace-free runs. -/
def wsTokensAux : List Char → List Char → List String
  | [], acc => if acc.isEmpty then [] else [String.mk acc.reverse]
  | c :: rest, acc =>
    if isWsChar c then
      if acc.isEmpty then wsTokensAux rest []
      else String.mk acc.reverse :: wsTokensAux rest []
    else wsTokensAux rest (c :: acc)

/-- Whitespace-delimited tokens of a string. -/
def wsTokens (s : String) : List String :=
  wsTokensAux s.data []

/-- Numeric value of a digit run. -/
def digitsVal (l : List Char) : Nat :=
  l.foldl (fun a c => a * 10 + (c.toNat - 48)) 0

/-- Parses an unsigned decimal numeral (optionally with a fractional part). -/
def parseUnsignedNumber (l : List Char) : Option ℚ :=
  match l.splitOn '.' with
  | [ip] =>
    if ip.isEmpty || !ip.all Char.isDigit then none
    else some (digitsVal ip : ℚ)
  | [ip, fp] =>
    if (ip.isEmpty && fp.isEmpty) || !ip.all Char.isDigit || !fp.all Char.isDigit
    then none
    else some ((digitsVal ip : ℚ) + (digitsVal fp : ℚ) / (10 : ℚ) ^ fp.length)
  | _ => none

/-- Parses a (possibly negative) decimal numeral. -/
def parseNumber (s : String) : Option ℚ :=
  match s.data with
  | '-' :: rest => (parseUnsignedNumber rest).map (fun q => -q)
  | l => parseUnsignedNumber l

/-- `s.split(':').pop()`: the part of `s` after its last colon (all of `s`
when there is none). -/
def afterLastColon (s : String) : String :=
  String.mk ((s.data.reverse.takeWhile (fun c => c != ':')).reverse)

/-- `s.split(':')[0]`: the part of `s` before its first colon. -/
def beforeFirstColon (s : String) : String :=
  String.mk (s.data.takeWhile (fun c => c != ':'))

/-- `s.indexOf(':') !== -1`. -/
def hasColon (s : String) : Bool :=
  s.data.contains ':'

/-- JavaScript truthiness filter for an optional string: `null` and `""` are
falsy. -/
def truthyString : Option String → Option String
  | some s => if s == "" then none else some s
  | none => none

/-- JavaScript `a || b` on two nullable strings. -/
def jsOrString (a b : Option String) : Option String :=
  match a with
  | some s => if s == "" then b else some s
  | none => b

/-- `ol/geom/GeometryLayout` (only the layouts the decoder mentions). -/
inductive GeometryLayout : Type where
  | XY
  | XYZ
deriving DecidableEq, Repr

/-- Tagged-variant model of the geometry classes produced by `GMLBase`:
flat coordinate sequence plus layout, ring-end offsets for polygons, member
lists for the `Multi*` collections. -/
inductive Geometry : Type where
  | point (layout : GeometryLayout) (flat : List ℚ)
  | lineString (layout : GeometryLayout) (flat : List ℚ)
  | linearRing (layout : GeometryLayout) (flat : List ℚ)
  | polygon (layout : GeometryLayout) (flat : List ℚ) (ends : List Nat)
  | multiPoint (coords : List (List ℚ))
  | multiLineString (members : List Geometry)
  | multiPolygon (members : List Geometry)

/-- Layout of a simple geometry (polygons included); `none` for collections. -/
def Geometry.layoutOf : Geometry → Option GeometryLayout
  | .point l _ => some l
  | .lineString l _ => some l
  | .linearRing l _ => some l
  | .polygon l _ _ => some l
  | _ => none

/-- Flat coordinates of a simple geometry; `[]` for collections. -/
def Geometry.flatOf : Geometry → List ℚ
  | .point _ f => f
  | .lineString _ f => f
  | .linearRing _ f => f
  | .polygon _ f _ => f
  | _ => []

/-- Ring-end offsets of a polygon; `[]` otherwise. -/
def Geometry.endsOf : Geometry → List Nat
  | .polygon _ _ e => e
  | _ => []

/-- Modelled from the spec: the flat-coordinate parsers
(`GEOMETRY_FLAT_COORDINATES_PARSERS_`, contributed by the GML2/GML3
subclasses) are absent from the provided source.  Following the spec's
"parse whitespace-delimited coordinate tuples from text content into a flat
coordinate sequence", the reader tokenizes the text content of the node's
subtree and parses every token as a number; it yields `undefined` (`none`)
when there is no coordinate content or a token is not numeric. -/
def readFlatCoordinatesFromNode (node : XmlNode) : Option (List ℚ) :=
  match wsTokens (getAllTextContent node) with
  | [] => none
  | ts => ts.mapM parseNumber

/-- `GMLBase.prototype.readFlatLinearRing_`: dispatches the same
flat-coordinate parsers and forwards a defined result, `undefined`
otherwise. -/
def readFlatLinearRing (node : XmlNode) : Option (List ℚ) :=
  readFlatCoordinatesFromNode node

/-- `GMLBase.prototype.readPoint`: wraps decoded flat coordinates into a
`Point` with the (hard-coded) `GeometryLayout.XYZ`; implicitly returns
`undefined` when the coordinates fail to decode. -/
def readPoint (node : XmlNode) : Option Geometry :=
  match readFlatCoordinatesFromNode node with
  | some flat => some (.point .XYZ flat)
  | none => none

/-- `GMLBase.prototype.readLineString`: same shape as `readPoint`. -/
def readLineString (node : XmlNode) : Option Geometry :=
  match readFlatCoordinatesFromNode node with
  | some flat => some (.lineString .XYZ flat)
  | none => none

/-- `GMLBase.prototype.readLinearRing`: same shape as `readPoint`. -/
def readLinearRing (node : XmlNode) : Option Geometry :=
  match readFlatCoordinatesFromNode node with
  | some flat => some (.linearRing .XYZ flat)
  | none => none

/-- `GMLBase.prototype.pointMemberParser_` with `POINTMEMBER_PARSERS_`:
every `gml:Point` element child contributes its flat coordinates (pushed by
`makeArrayPusher`, skipping `undefined`). -/
def pointMemberCoords (node : XmlNode) : List (List ℚ) :=
  node.elementChildren.foldl
    (fun acc c =>
      if c.namespaceURI == GMLNS && c.localName == "Point" then
        match readFlatCoordinatesFromNode c with
        | some f => acc ++ [f]
        | none => acc
      else acc) []

/-- `GMLBase.prototype.readMultiPoint` with `MULTIPOINT_PARSERS_`: both the
`pointMember` and `pointMembers` spellings collect member coordinates; the
accumulated array is always truthy, so a `MultiPoint` is always returned. -/
def readMultiPoint (node : XmlNode) : Option Geometry :=
  let coords := node.elementChildren.foldl
    (fun acc c =>
      if c.namespaceURI == GMLNS &&
          (c.localName == "pointMember" || c.localName == "pointMembers") then
        acc ++ pointMemberCoords c
      else acc) []
  some (.multiPoint coords)

/-- `GMLBase.prototype.lineStringMemberParser_` with
`LINESTRINGMEMBER_PARSERS_`: every `gml:LineString` child that decodes is
collected. -/
def lineStringMemberItems (node : XmlNode) : List Geometry :=
  node.elementChildren.foldl
    (fun acc c =>
      if c.namespaceURI == GMLNS && c.localName == "LineString" then
        match readLineString c with
        | some g => acc ++ [g]
        | none => acc
      else acc) []

/-- `GMLBase.prototype.readMultiLineString` with
`MULTILINESTRING_PARSERS_`. -/
def readMultiLineString (node : XmlNode) : Option Geometry :=
  let ls := node.elementChildren.foldl
    (fun acc c =>
      if c.namespaceURI == GMLNS &&
          (c.localName == "lineStringMember" ||
            c.localName == "lineStringMembers") then
        acc ++ lineStringMemberItems c
      else acc) []
  some (.multiLineString ls)

/-- `GMLBase.prototype.RING_PARSERS` dispatch: the last `gml:LinearRing`
child whose flat coordinates decode wins (`makeReplacer` skips
`undefined`). -/
def ringFromBoundary (node : XmlNode) : Option (List ℚ) :=
  node.elementChildren.foldl
    (fun acc c =>
      if c.namespaceURI == GMLNS && c.localName == "LinearRing" then
        match readFlatLinearRing c with
        | some r => some r
        | none => acc
      else acc) none

/-- Modelled from the spec: the boundary parsers
(`FLAT_LINEAR_RINGS_PARSERS_` with its `exterior` / `interior` handlers,
contributed by the GML subclasses) are absent from the provided source.
Following the spec's "decode exterior ring and zero-or-more interior
rings", an `exterior` child replaces the exterior slot (the `[null]` seed's
element 0) and each `interior` child appends a ring; a child whose ring
fails to decode is skipped.  Ring extraction itself uses the source's
`RING_PARSERS` dispatch (`ringFromBoundary`). -/
def collectPolygonRings :
    List XmlNode → Option (List ℚ) → List (List ℚ) →
      Option (List ℚ) × List (List ℚ)
  | [], ext, ints => (ext, ints)
  | c :: rest, ext, ints =>
    if c.namespaceURI == GMLNS && c.localName == "exterior" then
      match ringFromBoundary c with
      | some r => collectPolygonRings rest (some r) ints
      | none => collectPolygonRings rest ext ints
    else if c.namespaceURI == GMLNS && c.localName == "interior" then
      match ringFromBoundary c with
      | some r => collectPolygonRings rest ext (ints ++ [r])
      | none => collectPolygonRings rest ext ints
    else collectPolygonRings rest ext ints

/-- The concatenation-and-ends loop of `GMLBase.prototype.readPolygon`
(lines 428-433): `extend(flatCoordinates, ring)` followed by
`ends.push(flatCoordinates.length)` for every remaining ring. -/
def buildRings :
    List ℚ → List Nat → List (List ℚ) → List ℚ × List Nat
  | flat, ends, [] => (flat, ends)
  | flat, ends, r :: rs =>
    buildRings (flat ++ r) (ends ++ [(flat ++ r).length]) rs

/-- Core of `GMLBase.prototype.readPolygon` after ring collection: with no
exterior ring (`flatLinearRings[0]` still `null`) the result is
`undefined`; otherwise the exterior's flat coordinates seed the sequence
(initial `ends = [flatCoordinates.length]`) and the interior rings are
appended by `buildRings`, producing a polygon with the hard-coded
`GeometryLayout.XYZ`. -/
def readPolygonFromRings :
    Option (List ℚ) × List (List ℚ) → Option Geometry
  | (none, _) => none
  | (some r0, rs) =>
    let fe := buildRings r0 [r0.length] rs
    some (.polygon .XYZ fe.1 fe.2)

/-- `GMLBase.prototype.readPolygon`. -/
def readPolygon (node : XmlNode) : Option Geometry :=
  readPolygonFromRings (collectPolygonRings node.elementChildren none [])

/-- `GMLBase.prototype.polygonMemberParser_` with `POLYGONMEMBER_PARSERS_`. -/
def polygonMemberItems (node : XmlNode) : List Geometry :=
  node.elementChildren.foldl
    (fun acc c =>
      if c.namespaceURI == GMLNS && c.localName == "Polygon" then
        match readPolygon c with
        | some g => acc ++ [g]
        | none => acc
      else acc) []

/-- `GMLBase.prototype.readMultiPolygon` with `MULTIPOLYGON_PARSERS_`. -/
def readMultiPolygon (node : XmlNode) : Option Geometry :=
  let ps := node.elementChildren.foldl
    (fun acc c =>
      if c.namespaceURI == GMLNS &&
          (c.localName == "polygonMember" ||
            c.localName == "polygonMembers") then
        acc ++ polygonMemberItems c
      else acc) []
  some (.multiPolygon ps)

/-- The JavaScript value held in the context's `featureType` slot:
`undefined`, a single string, or an array of strings. -/
inductive FTVal : Type where
  | undef
  | str (s : String)
  | arr (l : List String)
deriving DecidableEq, Repr

/-- JavaScript truthiness of a `featureType` value (an array is truthy even
when empty; `""` is falsy). -/
def FTVal.truthy : FTVal → Bool
  | .undef => false
  | .str s => s != ""
  | .arr _ => true

/-- The JavaScript value held in the context's `featureNS` slot:
`undefined`, a single namespace URI, or a prefix-to-URI mapping (kept as an
insertion-ordered association list, matching `for..in` enumeration
order). -/
inductive NSVal : Type where
  | undef
  | str (s : String)
  | obj (l : List (String × String))
deriving DecidableEq, Repr

/-- The parse context (`objectStack[0]`): the read options plus the ambient
`srsName` / `srsDimension` written by `readGeometryElement`. -/
structure Context : Type where
  featureType : FTVal
  featureNS : NSVal
  srsName : Option String
  srsDimension : Option String
deriving DecidableEq, Repr

/-- The context built by `readFeaturesFromNode` from the format's options. -/
def Context.init (ft : FTVal) (ns : NSVal) : Context :=
  { featureType := ft, featureNS := ns, srsName := none, srsDimension := none }

/-- A feature property value: scalar text (possibly `undefined` after the
whitespace test) or a decoded geometry (possibly `undefined`). -/
inductive PropValue : Type where
  | strVal (s : Option String)
  | geomVal (g : Option Geometry)

/-- JavaScript-object insertion: overwrites in place when the key exists
(keeping its original position), appends otherwise. -/
def setAssoc {α : Type} : List (String × α) → String → α → List (String × α)
  | [], k, v => [(k, v)]
  | (k', v') :: rest, k, v =>
    if k' == k then (k', v) :: rest else (k', v') :: setAssoc rest k v

/-- JavaScript-object lookup. -/
def lookupAssoc {α : Type} : List (String × α) → String → Option α
  | [], _ => none
  | (k', v') :: rest, k => if k' == k then some v' else lookupAssoc rest k

/-- `ol.Feature` as produced by `readFeatureElement`: property values, the
designated geometry property name (set only when truthy) and the feature id
(set only when truthy). -/
structure Feature : Type where
  values : List (String × PropValue)
  geometryName : Option String
  id : Option String

/-- Modelled from the spec: `ol/format/Feature`'s `transformWithOptions`
(the external reprojection collaborator, declared out of scope by the spec)
is applied to every decoded geometry; it is modelled as the identity
transform. -/
def transformWithOptions (g : Geometry) (_ctx : Context) : Geometry :=
  g

/-- Modelled from the spec: the `GEOMETRY_PARSERS_` dispatch table is
contributed by the GML2/GML3 subclasses and absent from the provided
source.  Following the spec's "dispatches on element local-name to one of
the Point/LineString/LinearRing/Polygon/Multi* decoders via a
namespace-scoped dispatch table", the table maps those element names in the
GML namespace to the source's per-variant readers; `makeReplacer` keeps the
previous value when a reader yields `undefined`, so the last defined result
wins and `null` (`none`) survives when nothing matched. -/
def geometryDispatch : List XmlNode → Option Geometry → Option Geometry
  | [], acc => acc
  | c :: rest, acc =>
    let v : Option Geometry :=
      if c.namespaceURI == GMLNS then
        match c.localName with
        | "Point" => readPoint c
        | "LineString" => readLineString c
        | "LinearRing" => readLinearRing c
        | "Polygon" => readPolygon c
        | "MultiPoint" => readMultiPoint c
        | "MultiLineString" => readMultiLineString c
        | "MultiPolygon" => readMultiPolygon c
        | _ => none
      else none
    geometryDispatch rest (match v with | some g => some g | none => acc)

/-- `GMLBase.prototype.readGeometryElement`: dereferences
`node.firstElementChild` to read `srsName` / `srsDimension` into the
context — a `TypeError` (modelled as `Except.error ()`) when the node has
no element child — then dispatches the geometry parsers; a truthy geometry
is transformed, otherwise the result is `undefined`. -/
def readGeometryElement (node : XmlNode) (ctx : Context) :
    Except Unit (Option Geometry × Context) :=
  match node.firstElementChild with
  | none => .error ()
  | some fec =>
    let ctx' := { ctx with
      srsName := fec.getAttribute ("srsName"),
      srsDimension := fec.getAttribute ("srsDimension") }
    match geometryDispatch node.elementChildren none with
    | some g => .ok (some (transformWithOptions g ctx'), ctx')
    | none => .ok (none, ctx')

/-- The scalar-versus-complex classification of
`GMLBase.prototype.readFeatureElement` (lines 231-233): no child nodes, or
exactly one child that is a text (3) or CDATA (4) node. -/
def isScalarChild (n : XmlNode) : Bool :=
  match n.children with
  | [] => true
  | [c] => c.nodeType == 3 || c.nodeType == 4
  | _ => false

/-- The property loop of `readFeatureElement` (lines 226-246): iterates the
element children, stores scalar text values (whitespace-only text becomes
`undefined`), decodes complex children as geometries and remembers the local
name of every complex child except `boundedBy` as the candidate geometry
name (the last one wins). -/
def readFeatureProps :
    List XmlNode → Context → List (String × PropValue) → Option String →
      Except Unit ((List (String × PropValue)) × Option String × Context)
  | [], ctx, values, geomName => .ok (values, geomName, ctx)
  | n :: rest, ctx, values, geomName =>
    if isScalarChild n then
      let raw := getAllTextContent n
      let v : Option String := if isOnlyWhitespace raw then none else some raw
      readFeatureProps rest ctx (setAssoc values n.localName (.strVal v)) geomName
    else
      let geomName' :=
        if n.localName != "boundedBy" then some n.localName else geomName
      match readGeometryElement n ctx with
      | .error e => .error e
      | .ok (g, ctx') =>
        readFeatureProps rest ctx' (setAssoc values n.localName (.geomVal g))
          geomName'

/-- `GMLBase.prototype.readFeatureElement`: reads the id from the `fid`
attribute, falling back (via `||`) to the namespaced `gml:id` attribute;
builds the values, sets the geometry name and the id only when truthy. -/
def readFeatureElement (node : XmlNode) (ctx : Context) :
    Except Unit (Feature × Context) :=
  let fid := jsOrString (node.getAttribute ("fid"))
    (node.getAttributeNS GMLNS ("id"))
  match readFeatureProps node.elementChildren ctx [] none with
  | .error e => .error e
  | .ok (values, geomName, ctx') =>
    .ok ({ values := values,
           geometryName := truthyString geomName,
           id := truthyString fid }, ctx')

/-- One step of the feature-type auto-discovery loop of
`readFeaturesInternal` (lines 131-153): for an element child, take the part
of `nodeName` after the last colon; skip it if the accumulated featureType
list contains that bare name (`featureType.indexOf(ft)`); otherwise find an
existing prefix for the child's namespace URI in insertion order, or mint
`p<count>` where `count` is the number of entries already in `featureNS`. -/
def discoverStep (acc : List String × List (String × String))
    (child : XmlNode) : List String × List (String × String) :=
  if child.nodeType == 1 then
    let ft := afterLastColon child.nodeName
    if acc.1.contains ft then acc
    else
      match acc.2.find? (fun kv => kv.2 == child.namespaceURI) with
      | some kv => (acc.1 ++ [kv.1 ++ ":" ++ ft], acc.2)
      | none =>
        let key := "p" ++ toString acc.2.length
        (acc.1 ++ [key ++ ":" ++ ft], acc.2 ++ [(key, child.namespaceURI)])
  else acc

/-- The auto-discovery scan over all child nodes. -/
def discoverFeatureTypes (children : List XmlNode) :
    List String × List (String × String) :=
  children.foldl discoverStep ([], [])

/-- The per-namespace parser construction of `readFeaturesInternal`
(lines 165-180): for each prefix/URI pair, collect the local parts of the
feature types whose prefix (the part before the first colon, defaulting to
`p0` for unprefixed types) matches; assign the resulting name list to the
URI (later prefixes for the same URI overwrite earlier ones). -/
def buildFeatureParsers (nsList : List (String × String))
    (featureTypes : List String) : List (String × List String) :=
  nsList.foldl
    (fun acc kv =>
      let names := featureTypes.foldl
        (fun ns ft =>
          let pfx := if hasColon ft then beforeFirstColon ft else "p0"
          if pfx == kv.1 then ns ++ [afterLastColon ft] else ns) []
      setAssoc acc kv.2 names) []

/-- The result value of `readFeaturesInternal`: JavaScript `undefined`,
`null`, a single feature (the `featureMember` replacer case) or an array of
features. -/
inductive FeaturesResult : Type where
  | undef
  | nullv
  | feat (f : Feature)
  | arr (fs : List Feature)

/-- The `featureMembers` child loop: `makeArrayPusher(readFeatureElement)`
on every element child matched by the namespace/local-name tables
(`readFeatureElement` never yields `undefined`, so every match pushes). -/
def memberPusherLoop (pns : List (String × List String)) :
    List XmlNode → Context → List Feature →
      Except Unit (List Feature × Context)
  | [], ctx, acc => .ok (acc, ctx)
  | c :: rest, ctx, acc =>
    match lookupAssoc pns c.namespaceURI with
    | some names =>
      if names.contains c.localName then
        match readFeatureElement c ctx with
        | .error e => .error e
        | .ok (f, ctx') => memberPusherLoop pns rest ctx' (acc ++ [f])
      else memberPusherLoop pns rest ctx acc
    | none => memberPusherLoop pns rest ctx acc

/-- The `featureMember` child loop: `makeReplacer(readFeatureElement)` — a
matched child replaces the stack top (seeded `undefined`) with the single
decoded feature. -/
def memberReplacerLoop (pns : List (String × List String)) :
    List XmlNode → Context → FeaturesResult →
      Except Unit (FeaturesResult × Context)
  | [], ctx, acc => .ok (acc, ctx)
  | c :: rest, ctx, acc =>
    match lookupAssoc pns c.namespaceURI with
    | some names =>
      if names.contains c.localName then
        match readFeatureElement c ctx with
        | .error e => .error e
        | .ok (f, ctx') => memberReplacerLoop pns rest ctx' (.feat f)
      else memberReplacerLoop pns rest ctx acc
    | none => memberReplacerLoop pns rest ctx acc

/-- The `featureMembers` / `featureMember` branch of
`readFeaturesInternal` (lines 124-185).  When the context's `featureType`
is falsy the types and namespaces are auto-discovered from the child nodes
(`node.childNodes` is always truthy in the DOM), and they are stored back
into the context only when the element is not a `featureMember`; a plain
string `featureNS` is wrapped as `{p0: ns}`; `for..in` over an `undefined`
`featureNS` iterates zero times (yielding no parsers).  A falsy
`featureType` always triggers discovery, so the `[featureType]` wrapping
only ever sees strings. -/
def readFeaturesMembersBranch (node : XmlNode) (ctx : Context) :
    Except Unit (FeaturesResult × Context) :=
  let isSingular := node.localName == "featureMember"
  let step1 : FTVal × NSVal × Context :=
    if !ctx.featureType.truthy then
      let d := discoverFeatureTypes node.children
      if !isSingular then
        (.arr d.1, .obj d.2,
          { ctx with featureType := .arr d.1, featureNS := .obj d.2 })
      else (.arr d.1, .obj d.2, ctx)
    else (ctx.featureType, ctx.featureNS, ctx)
  let nsList : List (String × String) :=
    match step1.2.1 with
    | .undef => []
    | .str s => [(("p0"), s)]
    | .obj l => l
  let featureTypes : List String :=
    match step1.1 with
    | .arr l => l
    | .str s => [s]
    | .undef => []
  let pns := buildFeatureParsers nsList featureTypes
  if isSingular then
    memberReplacerLoop pns node.elementChildren step1.2.2 .undef
  else
    match memberPusherLoop pns node.elementChildren step1.2.2 [] with
    | .error e => .error e
    | .ok (fs, ctx') => .ok (.arr fs, ctx')

/-- `readFeaturesInternal` on a node that is not a `FeatureCollection`:
the member branch, or `null` for any other local name, followed by the
final `features === null` coercion to `[]` (lines 187-189) — strict
equality, so `undefined` passes through. -/
def readFeaturesInternalAux (node : XmlNode) (ctx : Context) :
    Except Unit (FeaturesResult × Context) :=
  let r :=
    if node.localName == "featureMembers" ||
        node.localName == "featureMember" then
      readFeaturesMembersBranch node ctx
    else .ok (.nullv, ctx)
  match r with
  | .ok (.nullv, c) => .ok (.arr [], c)
  | x => x

/-- The `FeatureCollection` child loop (`FEATURE_COLLECTION_PARSERS`):
`makeReplacer(readFeaturesInternal)` on `gml:featureMember` /
`gml:featureMembers` children.  The recursive call is on a child named
`featureMember(s)`, for which `readFeaturesInternal` coincides with its
non-`FeatureCollection` branches (`readFeaturesInternalAux`), so the
recursion is inlined to that function.  A defined result replaces the
accumulator. -/
def fcChildrenLoop :
    List XmlNode → Context → FeaturesResult →
      Except Unit (FeaturesResult × Context)
  | [], ctx, acc => .ok (acc, ctx)
  | c :: rest, ctx, acc =>
    if c.nodeType == 1 && c.namespaceURI == GMLNS &&
        (c.localName == "featureMember" ||
          c.localName == "featureMembers") then
      match readFeaturesInternalAux c ctx with
      | .error e => .error e
      | .ok (v, ctx') =>
        fcChildrenLoop rest ctx'
          (match v with | .undef => acc | x => x)
    else fcChildrenLoop rest ctx acc

/-- `GMLBase.prototype.readFeaturesInternal` (lines 111-191): the
`FeatureCollection` branch seeds `[]` for the WFS namespace and `null`
otherwise, then parses the member children; any other node goes through
`readFeaturesInternalAux`; a still-`null` result is coerced to `[]`. -/
def readFeaturesInternal (node : XmlNode) (ctx : Context) :
    Except Unit (FeaturesResult × Context) :=
  if node.localName == "FeatureCollection" then
    let seed : FeaturesResult :=
      if node.namespaceURI == WFSNS then .arr [] else .nullv
    match fcChildrenLoop node.children ctx seed with
    | .error e => .error e
    | .ok (.nullv, c) => .ok (.arr [], c)
    | .ok (v, c) => .ok (v, c)
  else readFeaturesInternalAux node ctx

/-- The `features || []` coercion of `readFeaturesFromNode`: `undefined`
and `null` are falsy; a feature object and any array (also the empty one)
are truthy. -/
def jsOrEmptyArray : FeaturesResult → FeaturesResult
  | .undef => .arr []
  | .nullv => .arr []
  | x => x

/-- `GMLBase.prototype.readFeaturesFromNode` (lines 578-588) without
caller-supplied read options: seeds the context from the format's
`featureType` / `featureNS` options and coerces a falsy internal result to
the empty array. -/
def readFeaturesFromNode (ft : FTVal) (ns : NSVal) (node : XmlNode) :
    Except Unit FeaturesResult :=
  match readFeaturesInternal node (Context.init ft ns) with
  | .error e => .error e
  | .ok (res, _) => .ok (jsOrEmptyArray res)

/-- Modelled from the spec: `ol/Sphere.js` is absent from the provided
source (only its test suite is present).  The geometry shapes `getLength`
recurses over, with coordinates as (longitude, latitude) pairs. -/
inductive SGeometry : Type where
  | point (c : ℚ × ℚ)
  | multiPoint (cs : List (ℚ × ℚ))
  | lineString (cs : List (ℚ × ℚ))
  | multiLineString (ls : List (List (ℚ × ℚ)))
  | geometryCollection (gs : List SGeometry)

/-- Modelled from the spec: the length of one line — the sum of the
segment distances (`d` stands for the haversine distance on the configured
sphere) between consecutive vertices. -/
def lineStringLength (d : (ℚ × ℚ) → (ℚ × ℚ) → ℚ) :
    List (ℚ × ℚ) → ℚ
  | a :: b :: rest => d a b + lineStringLength d (b :: rest)
  | _ => 0

mutual

/-- Modelled from the spec: `Sphere.getLength` sums the segment distances
of every line-like sub-geometry — `Point` and `MultiPoint` contribute 0, a
`LineString` contributes its segment sum, `MultiLineString` and
`GeometryCollection` recurse over their members. -/
def getLength (d : (ℚ × ℚ) → (ℚ × ℚ) → ℚ) : SGeometry → ℚ
  | .point _ => 0
  | .multiPoint _ => 0
  | .lineString cs => lineStringLength d cs
  | .multiLineString ls => (ls.map (lineStringLength d)).sum
  | .geometryCollection gs => getLengthList d gs

/-- Total length of a list of member geometries. -/
def getLengthList (d : (ℚ × ℚ) → (ℚ × ℚ) → ℚ) : List SGeometry → ℚ
  | [] => 0
  | g :: gs => getLength d g + getLengthList d gs

end

/-- Concatenation of decoded rings, used to state what `readPolygon`
produces. -/
def concatRings : List (List ℚ) → List ℚ
  | [] => []
  | r :: rs => r ++ concatRings rs

/-- The cumulative end offsets the ring loop appends after an initial
offset `base`. -/
def ringEnds (base : Nat) : List (List ℚ) → List Nat
  | [] => []
  | r :: rs => (base + r.length) :: ringEnds (base + r.length) rs

/-- The designated-geometry property name `readFeatureElement` ends up
with: the local name of the last complex (non-scalar) child whose local
name is not `boundedBy`, filtered through JavaScript truthiness. -/
def designatedGeometryName (node : XmlNode) : Option String :=
  truthyString
    ((node.elementChildren.reverse.find?
      (fun c => !isScalarChild c && c.localName != "boundedBy")).map
      XmlNode.localName)

/-- The geometry-name accumulator of the property loop, expressed as a
fold: a complex, non-`boundedBy` child overwrites the candidate name. -/
def foldGeomName (g0 : Option String) (cs : List XmlNode) : Option String :=
  cs.foldl
    (fun g c =>
      if !isScalarChild c && c.localName != "boundedBy" then some c.localName
      else g) g0

/-- Whether a `readFeaturesInternal` result is an array. -/
def FeaturesResult.isArray : FeaturesResult → Bool
  | .arr _ => true
  | _ => false

/-- A two-dimensional `gml:Point` element (no `srsDimension`, a single
`pos` child holding two coordinates). -/
def p2dNode : XmlNode :=
  XmlNode.elem GMLNS ("Point") ("Point") []
    [XmlNode.elem GMLNS ("pos") ("pos") [] [XmlNode.text ("1 2")]]

/-- A two-point, three-dimensional `gml:LineString` element. -/
def l3dNode : XmlNode :=
  XmlNode.elem GMLNS ("LineString") ("LineString") []
    [XmlNode.elem GMLNS ("posList") ("posList") []
      [XmlNode.text ("1 2 3 4 5 6")]]

/-- The context update `readGeometryElement` performs on its context. -/
def ctxUpd (ctx : Context) (fec : XmlNode) : Context :=
  { ctx with
    srsName := fec.getAttribute ("srsName"),
    srsDimension := fec.getAttribute ("srsDimension") }

/-- The context as updated by the discovery storage of the `featureMembers`
branch. -/
def storedCtx (ctx : Context) (d : List String × List (String × String)) :
    Context :=
  { ctx with featureType := .arr d.1, featureNS := .obj d.2 }

/-- A feature element whose only property child holds a recognisable
geometry child: `readFeatureElement` succeeds on it. -/
def c1WitnessNode : XmlNode :=
  XmlNode.elem ("urn:x") ("f") ("f") []
    [XmlNode.elem ("") ("geom") ("geom") []
      [XmlNode.elem GMLNS ("Point") ("Point") [] [XmlNode.text ("1 2")]]]

/-- A feature element whose property child has two character-data children:
it is classified complex, yet has no element child. -/
def c1ThrowNode : XmlNode :=
  XmlNode.elem ("urn:x") ("f") ("f") []
    [XmlNode.elem ("") ("value") ("value") []
      [XmlNode.text ("a"), XmlNode.cdata ("b")]]

/-- A feature element with a single complex, non-`boundedBy` child. -/
def c4WitnessNode : XmlNode :=
  XmlNode.elem ("urn:x") ("f") ("f") []
    [XmlNode.elem ("") ("geo") ("geo") []
      [XmlNode.elem ("") ("i") ("i") [] []]]

/-- A feature element with two complex children `g1` and `g2`. -/
def c4CexNode : XmlNode :=
  XmlNode.elem ("urn:x") ("f") ("f") []
    [XmlNode.elem ("") ("g1") ("g1") []
      [XmlNode.elem ("") ("i") ("i") [] []],
     XmlNode.elem ("") ("g2") ("g2") []
      [XmlNode.elem ("") ("i") ("i") [] []]]

/-- A `featureMembers` container with one child in a foreign namespace. -/
def c2Node : XmlNode :=
  XmlNode.elem GMLNS ("featureMembers") ("featureMembers") []
    [XmlNode.elem ("urn:a") ("ta") ("ta") [] []]

/-- A `featureMember` element with no matching child. -/
def c10UndefNode : XmlNode :=
  XmlNode.elem GMLNS ("featureMember") ("featureMember") [] []

/-- A `featureMember` element with one matching feature child. -/
def c10FeatNode : XmlNode :=
  XmlNode.elem GMLNS ("featureMember") ("featureMember") []
    [XmlNode.elem ("urn:x") ("x") ("x") [] []]

lemma buildRings_eq (rs : List (List ℚ)) :
    ∀ (flat : List ℚ) (ends : List Nat),
      buildRings flat ends rs =
        (flat ++ concatRings rs, ends ++ ringEnds flat.length rs) := by
  induction rs with
  | nil => intro flat ends; simp [buildRings, concatRings, ringEnds]
  | cons r rs ih =>
    intro flat ends
    simp only [buildRings, concatRings, ringEnds, ih, List.append_assoc,
      List.length_append, List.singleton_append]

lemma ringEnds_length (rs : List (List ℚ)) :
    ∀ b, (ringEnds b rs).length = rs.length := by
  induction rs with
  | nil => intro b; rfl
  | cons r rs ih => intro b; simp [ringEnds, ih]

lemma ringEnds_getLast (rs : List (List ℚ)) :
    ∀ b, (b :: ringEnds b rs).getLast? = some (b + (concatRings rs).length) := by
  induction rs with
  | nil => intro b; simp [ringEnds, concatRings]
  | cons r rs ih =>
    intro b
    rw [ringEnds, List.getLast?_cons_cons, ih]
    simp [concatRings]
    omega

lemma ringEnds_chain_le (rs : List (List ℚ)) :
    ∀ b, List.Chain' (· ≤ ·) (b :: ringEnds b rs) := by
  induction rs with
  | nil => intro b; simp [ringEnds]
  | cons r rs ih =>
    intro b
    rw [ringEnds, List.chain'_cons]
    exact ⟨Nat.le_add_right b r.length, ih (b + r.length)⟩

lemma ringEnds_chain_lt (rs : List (List ℚ)) :
    ∀ b, (∀ r ∈ rs, r ≠ []) → List.Chain' (· < ·) (b :: ringEnds b rs) := by
  induction rs with
  | nil => intro b _; simp [ringEnds]
  | cons r rs ih =>
    intro b h
    rw [ringEnds, List.chain'_cons]
    refine ⟨?_, ih (b + r.length) (fun x hx => h x (List.mem_cons_of_mem r hx))⟩
    have hr : r ≠ [] := h r (List.mem_cons_self r rs)
    have : 0 < r.length := List.length_pos.mpr hr
    omega

lemma readPolygonFromRings_some (e : List ℚ) (rs : List (List ℚ)) :
    readPolygonFromRings (some e, rs) =
      some (.polygon .XYZ (e ++ concatRings rs)
        (e.length :: ringEnds e.length rs)) := by
  simp only [readPolygonFromRings, buildRings_eq, List.singleton_append]

/-- C5: `readPolygon` yields `undefined` iff no exterior ring was decoded;
otherwise it concatenates all decoded rings' flat coordinates in order with
the exterior first and records one cumulative end offset per ring; with one
exterior and one interior ring the ends have length 2 and the second entry
is the total flat-coordinate count. -/
theorem readPolygon_spec :
    (∀ node, readPolygon node =
      readPolygonFromRings (collectPolygonRings node.elementChildren none [])) ∧
    (∀ (p : Option (List ℚ) × List (List ℚ)),
      readPolygonFromRings p = none ↔ p.1 = none) ∧
    (∀ (e : List ℚ) (rs : List (List ℚ)),
      readPolygonFromRings (some e, rs) =
        some (.polygon .XYZ (e ++ concatRings rs)
          (e.length :: ringEnds e.length rs)) ∧
      (e.length :: ringEnds e.length rs).length = 1 + rs.length ∧
      (e.length :: ringEnds e.length rs).getLast? =
        some ((e ++ concatRings rs).length)) ∧
    (∀ (e i : List ℚ),
      readPolygonFromRings (some e, [i]) =
        some (.polygon .XYZ (e ++ i) [e.length, e.length + i.length]) ∧
      [e.length, e.length + i.length].length = 2 ∧
      e.length + i.length = (e ++ i).length) := by
  refine ⟨fun node => rfl, ?_, ?_, ?_⟩
  · rintro ⟨oe, rs⟩
    cases oe with
    | none => simp [readPolygonFromRings]
    | some e => simp [readPolygonFromRings_some]
  · intro e rs
    refine ⟨readPolygonFromRings_some e rs, ?_, ?_⟩
    · simp [ringEnds_length]
      omega
    · rw [ringEnds_getLast]
      simp
  · intro e i
    refine ⟨?_, rfl, (List.length_append e i).symm⟩
    rw [readPolygonFromRings_some]
    simp [concatRings, ringEnds]

/-- C6 (amended): the ring-ends sequence of every polygon produced by
`readPolygon`'s core is non-decreasing and its last value equals the
flat-coordinate count; it is strictly increasing provided every decoded
interior ring is non-empty (an empty decoded ring repeats the previous
offset). -/
theorem readPolygon_ends_invariant :
    ∀ (e : List ℚ) (rs : List (List ℚ)) (g : Geometry),
      readPolygonFromRings (some e, rs) = some g →
      List.Chain' (· ≤ ·) g.endsOf ∧
        g.endsOf.getLast? = some g.flatOf.length ∧
        ((∀ r ∈ rs, r ≠ []) → List.Chain' (· < ·) g.endsOf) := by
  intro e rs g h
  rw [readPolygonFromRings_some] at h
  have hg := (Option.some.inj h).symm
  subst hg
  refine ⟨ringEnds_chain_le rs e.length, ?_, fun hne => ringEnds_chain_lt rs e.length hne⟩
  simp only [Geometry.endsOf, Geometry.flatOf]
  rw [ringEnds_getLast]
  simp

/-- Witness for `readPolygon_ends_invariant` at a concrete one-interior
polygon. -/
theorem readPolygon_ends_invariant_witness :
    readPolygonFromRings (some ([0, 0, 0] : List ℚ), [[1, 1, 1]]) =
      some (.polygon .XYZ [0, 0, 0, 1, 1, 1] [3, 6]) ∧
    List.Chain' (· < ·) (Geometry.polygon .XYZ
      ([0, 0, 0, 1, 1, 1] : List ℚ) [3, 6]).endsOf :=
  ⟨rfl, (readPolygon_ends_invariant [0, 0, 0] [[1, 1, 1]] _ rfl).2.2
    (by decide)⟩

/-- C6 counterexample: an empty decoded interior ring yields the ring-ends
`[3, 3]`, which is not strictly increasing, refuting the claim as stated
over every sequence of decoded rings. -/
theorem readPolygon_ends_counterexample :
    readPolygonFromRings (some ([0, 0, 0] : List ℚ), [[]]) =
      some (.polygon .XYZ [0, 0, 0] [3, 3]) ∧
    ¬ List.Chain' (· < ·) [3, 3] :=
  ⟨rfl, fun h => absurd (List.chain'_cons.mp h).1 (lt_irrefl 3)⟩

/-- C7 (amended): the Point, LineString and LinearRing decoders parse the
whitespace-delimited coordinate tuples of the element's text content into a
flat coordinate sequence, but always construct the geometry with the
hard-coded `GeometryLayout.XYZ` — the layout is never chosen from the
dimensionality found (a two-dimensional point still gets layout XYZ). -/
theorem readers_layout_always_xyz :
    (∀ node, readPoint node =
      (readFlatCoordinatesFromNode node).map (Geometry.point .XYZ)) ∧
    (∀ node, readLineString node =
      (readFlatCoordinatesFromNode node).map (Geometry.lineString .XYZ)) ∧
    (∀ node, readLinearRing node =
      (readFlatCoordinatesFromNode node).map (Geometry.linearRing .XYZ)) ∧
    readPoint p2dNode = some (.point .XYZ [1, 2]) ∧
    readLineString l3dNode = some (.lineString .XYZ [1, 2, 3, 4, 5, 6]) := by
  refine ⟨?_, ?_, ?_, rfl, rfl⟩ <;>
    intro node <;>
    cases h : readFlatCoordinatesFromNode node <;>
    simp [readPoint, readLineString, readLinearRing, h]

/-- C7 counterexample: on a two-dimensional point the decoder produces
layout XYZ, not the XY layout the dimensionality would select. -/
theorem readers_layout_counterexample :
    readPoint p2dNode = some (.point .XYZ [1, 2]) ∧
    readPoint p2dNode ≠ some (.point .XY [1, 2]) :=
  ⟨rfl, by simp [show readPoint p2dNode = some (.point .XYZ [1, 2]) from rfl]⟩

lemma afterLastColon_eq (s : String) (h : ':' ∉ s.data) :
    afterLastColon s = s := by
  unfold afterLastColon
  rw [List.takeWhile_eq_self_iff.mpr, List.reverse_reverse]
  intro c hc
  have hm : c ∈ s.data := List.mem_reverse.mp hc
  exact bne_iff_ne.mpr (fun he => h (he ▸ hm))

lemma ne_colonPrefix_append (pre y t : String) (hp : ':' ∈ pre.data)
    (h : ':' ∉ t.data) : t ≠ pre ++ y := by
  intro he
  apply h
  rw [he, String.data_append]
  exact List.mem_append.mpr (Or.inl hp)

/-- C3: with no declared feature type, the auto-discovery scan of
`readFeaturesInternal` assigns one synthetic prefix per distinct namespace
URI in order of first encounter: two element children in different
namespaces get `p0` and `p1` and contribute the prefixed types in
order. -/
theorem discover_two_namespaces :
    ∀ (c1 c2 : XmlNode),
      c1.nodeType = 1 → c2.nodeType = 1 →
      ':' ∉ c1.nodeName.data → ':' ∉ c2.nodeName.data →
      c1.namespaceURI ≠ c2.namespaceURI →
      discoverFeatureTypes [c1, c2] =
        ([("p0:" : String) ++ c1.nodeName, ("p1:" : String) ++ c2.nodeName],
          [(("p0" : String), c1.namespaceURI),
            (("p1" : String), c2.namespaceURI)]) := by
  intro c1 c2 h1 h2 hn1 hn2 hns
  have hft1 : afterLastColon c1.nodeName = c1.nodeName := afterLastColon_eq _ hn1
  have hft2 : afterLastColon c2.nodeName = c2.nodeName := afterLastColon_eq _ hn2
  have p0 : ("p" : String) ++ toString (0 : Nat) = "p0" := rfl
  have p1 : ("p" : String) ++ toString (1 : Nat) = "p1" := rfl
  have s1 : discoverStep ([], []) c1 =
      ([("p0:" : String) ++ c1.nodeName], [(("p0" : String), c1.namespaceURI)]) := by
    unfold discoverStep
    rw [h1]
    simp [hft1, p0]
  have hne : c2.nodeName ≠ ("p0:" : String) ++ c1.nodeName :=
    ne_colonPrefix_append ("p0:") c1.nodeName c2.nodeName (by decide) hn2
  have hnsb : (c1.namespaceURI == c2.namespaceURI) = false :=
    beq_false_of_ne hns
  have s2 : discoverStep
      ([("p0:" : String) ++ c1.nodeName], [(("p0" : String), c1.namespaceURI)]) c2 =
      ([("p0:" : String) ++ c1.nodeName, ("p1:" : String) ++ c2.nodeName],
        [(("p0" : String), c1.namespaceURI),
          (("p1" : String), c2.namespaceURI)]) := by
    unfold discoverStep
    rw [h2]
    simp [hft2, List.contains, hne, List.find?, hnsb, p1]
  show List.foldl discoverStep ([], []) [c1, c2] = _
  rw [List.foldl_cons, List.foldl_cons, List.foldl_nil, s1, s2]

/-- Witness for `discover_two_namespaces` at two concrete children. -/
theorem discover_two_namespaces_witness :
    discoverFeatureTypes
      [XmlNode.elem ("urn:a") ("ta") ("ta") [] [],
        XmlNode.elem ("urn:b") ("tb") ("tb") [] []] =
      ([("p0:" : String) ++ "ta", ("p1:" : String) ++ "tb"],
        [(("p0" : String), ("urn:a" : String)),
          (("p1" : String), ("urn:b" : String))]) :=
  discover_two_namespaces
    (XmlNode.elem ("urn:a") ("ta") ("ta") [] [])
    (XmlNode.elem ("urn:b") ("tb") ("tb") [] [])
    rfl rfl (by decide) (by decide) (by decide)

lemma readGeometryElement_of_none (node : XmlNode) (ctx : Context)
    (h : node.firstElementChild = none) :
    readGeometryElement node ctx = .error () := by
  unfold readGeometryElement
  rw [h]

lemma readGeometryElement_of_some (node : XmlNode) (ctx : Context)
    (fec : XmlNode) (h : node.firstElementChild = some fec) :
    readGeometryElement node ctx =
      .ok ((geometryDispatch node.elementChildren none).map
        (fun g => transformWithOptions g (ctxUpd ctx fec)), ctxUpd ctx fec) := by
  unfold readGeometryElement
  rw [h]
  cases geometryDispatch node.elementChildren none <;> rfl

lemma readGeometryElement_keep (node : XmlNode) (ctx : Context)
    (g : Option Geometry) (ctx' : Context)
    (h : readGeometryElement node ctx = .ok (g, ctx')) :
    ctx'.featureType = ctx.featureType ∧ ctx'.featureNS = ctx.featureNS := by
  cases hfec : node.firstElementChild with
  | none => rw [readGeometryElement_of_none node ctx hfec] at h; cases h
  | some fec =>
    rw [readGeometryElement_of_some node ctx fec hfec] at h
    have := (Except.ok.inj h)
    have hc : ctxUpd ctx fec = ctx' := congrArg Prod.snd this
    rw [← hc]
    exact ⟨rfl, rfl⟩

lemma foldGeomName_eq_find (cs : List XmlNode) :
    ∀ g0, foldGeomName g0 cs =
      match cs.reverse.find?
        (fun c => !isScalarChild c && c.localName != "boundedBy") with
      | some c => some c.localName
      | none => g0 := by
  induction cs with
  | nil => intro g0; rfl
  | cons c cs ih =>
    intro g0
    rw [show foldGeomName g0 (c :: cs) =
      foldGeomName
        (if !isScalarChild c && c.localName != "boundedBy" then some c.localName
          else g0) cs from rfl]
    rw [ih, List.reverse_cons, List.find?_append]
    cases hf : cs.reverse.find?
        (fun c => !isScalarChild c && c.localName != "boundedBy") with
    | some x => simp [Option.orElse]
    | none =>
      by_cases hp : (!isScalarChild c && c.localName != "boundedBy") = true
      · simp [Option.orElse, List.find?, hp]
      · rw [Bool.not_eq_true] at hp
        simp [Option.orElse, List.find?, hp]

lemma readFeatureProps_ok_spec (cs : List XmlNode) :
    ∀ (ctx : Context) (vals : List (String × PropValue)) (g0 : Option String)
      (vals' : List (String × PropValue)) (g' : Option String)
      (ctx'' : Context),
      readFeatureProps cs ctx vals g0 = .ok (vals', g', ctx'') →
      ctx''.featureType = ctx.featureType ∧
        ctx''.featureNS = ctx.featureNS ∧ g' = foldGeomName g0 cs := by
  induction cs with
  | nil =>
    intro ctx vals g0 vals' g' ctx'' h
    have hinj := Except.ok.inj h
    injection hinj with h1 h23
    injection h23 with h2 h3
    subst h1
    subst h2
    subst h3
    exact ⟨rfl, rfl, rfl⟩
  | cons n rest ih =>
    intro ctx vals g0 vals' g' ctx'' h
    rw [readFeatureProps] at h
    by_cases hs : isScalarChild n
    · rw [if_pos hs] at h
      have := ih ctx _ g0 vals' g' ctx'' h
      refine ⟨this.1, this.2.1, ?_⟩
      rw [this.2.2]
      rw [show foldGeomName g0 (n :: rest) =
        foldGeomName
          (if !isScalarChild n && n.localName != "boundedBy" then
            some n.localName else g0) rest from rfl]
      simp [hs]
    · rw [if_neg hs] at h
      revert h
      cases hge : readGeometryElement n ctx with
      | error e => intro h; cases h
      | ok p =>
        obtain ⟨g, ctxm⟩ := p
        intro h
        have keep := readGeometryElement_keep n ctx g ctxm hge
        have := ih ctxm _ _ vals' g' ctx'' h
        refine ⟨this.1.trans keep.1, this.2.1.trans keep.2, ?_⟩
        rw [this.2.2]
        rw [show foldGeomName g0 (n :: rest) =
          foldGeomName
            (if !isScalarChild n && n.localName != "boundedBy" then
              some n.localName else g0) rest from rfl]
        have hb : (!isScalarChild n) = true := by simp [hs]
        simp only [hb, Bool.true_and]

lemma readFeatureProps_total (cs : List XmlNode) :
    ∀ (ctx : Context) (vals : List (String × PropValue)) (g0 : Option String),
      (∀ c ∈ cs, isScalarChild c = false → (c.firstElementChild).isSome = true) →
      ∃ out, readFeatureProps cs ctx vals g0 = .ok out := by
  induction cs with
  | nil => intro ctx vals g0 _; exact ⟨_, rfl⟩
  | cons n rest ih =>
    intro ctx vals g0 h
    rw [readFeatureProps]
    by_cases hs : isScalarChild n
    · rw [if_pos hs]
      exact ih ctx _ g0 (fun c hc => h c (List.mem_cons_of_mem n hc))
    · rw [if_neg hs]
      have hfe : (n.firstElementChild).isSome = true :=
        h n (List.mem_cons_self n rest) (by simp [hs])
      obtain ⟨fec, hfec⟩ := Option.isSome_iff_exists.mp hfe
      rw [readGeometryElement_of_some n ctx fec hfec]
      exact ih _ _ _ (fun c hc => h c (List.mem_cons_of_mem n hc))

lemma readFeatureElement_ok_spec (node : XmlNode) (ctx : Context)
    (f : Feature) (ctx' : Context)
    (h : readFeatureElement node ctx = .ok (f, ctx')) :
    ctx'.featureType = ctx.featureType ∧ ctx'.featureNS = ctx.featureNS ∧
      f.geometryName = designatedGeometryName node := by
  unfold readFeatureElement at h
  revert h
  cases hp : readFeatureProps node.elementChildren ctx [] none with
  | error e => intro h; cases h
  | ok out =>
    obtain ⟨vals, g', ctx''⟩ := out
    intro h
    have hinj := Except.ok.inj h
    have spec := readFeatureProps_ok_spec node.elementChildren ctx [] none
      vals g' ctx'' hp
    have hcx : ctx'' = ctx' := congrArg Prod.snd hinj
    have hfv : truthyString g' = f.geometryName :=
      congrArg (fun p => p.1.geometryName) hinj
    refine ⟨hcx ▸ spec.1, hcx ▸ spec.2.1, ?_⟩
    rw [← hfv]
    rw [spec.2.2, foldGeomName_eq_find]
    unfold designatedGeometryName
    cases node.elementChildren.reverse.find?
        (fun c => !isScalarChild c && c.localName != "boundedBy") <;> rfl

lemma readFeatureElement_total (node : XmlNode) (ctx : Context)
    (h : ∀ c ∈ node.elementChildren,
      isScalarChild c = false → (c.firstElementChild).isSome = true) :
    ∃ out, readFeatureElement node ctx = .ok out := by
  obtain ⟨out, hout⟩ := readFeatureProps_total node.elementChildren ctx [] none h
  obtain ⟨vals, g', ctx''⟩ := out
  exact ⟨_, by unfold readFeatureElement; rw [hout]⟩

/-- C1 (amended): the decoders raise no exception except in one situation —
`readGeometryElement` dereferences `firstElementChild`, so it throws
exactly when its node has no element child; with an element child present
it always succeeds, returning `undefined` (with the srs context captured)
when no geometry tag matches; and `readFeatureElement` succeeds — treating
`undefined` sub-results as absence and continuing — whenever each of its
complex-classified children has at least one element child. -/
theorem decoder_no_throw_amended :
    (∀ (node : XmlNode) (ctx : Context), node.firstElementChild = none →
      readGeometryElement node ctx = .error ()) ∧
    (∀ (node : XmlNode) (ctx : Context) (fec : XmlNode),
      node.firstElementChild = some fec →
      ∃ r, readGeometryElement node ctx = .ok r) ∧
    (∀ (node : XmlNode) (ctx : Context) (fec : XmlNode),
      node.firstElementChild = some fec →
      geometryDispatch node.elementChildren none = none →
      readGeometryElement node ctx = .ok (none, ctxUpd ctx fec)) ∧
    (∀ (node : XmlNode) (ctx : Context),
      (∀ c ∈ node.elementChildren,
        isScalarChild c = false → (c.firstElementChild).isSome = true) →
      ∃ out, readFeatureElement node ctx = .ok out) := by
  refine ⟨readGeometryElement_of_none, ?_, ?_, fun node ctx h => readFeatureElement_total node ctx h⟩
  · intro node ctx fec hfec
    exact ⟨_, readGeometryElement_of_some node ctx fec hfec⟩
  · intro node ctx fec hfec hd
    rw [readGeometryElement_of_some node ctx fec hfec, hd]
    rfl

/-- Witness for `decoder_no_throw_amended` on a concrete feature element
with one complex child. -/
theorem decoder_no_throw_witness :
    (∀ c ∈ c1WitnessNode.elementChildren,
      isScalarChild c = false → (c.firstElementChild).isSome = true) ∧
    (∃ out, readFeatureElement c1WitnessNode
      (Context.init .undef .undef) = .ok out) :=
  ⟨by decide, decoder_no_throw_amended.2.2.2 c1WitnessNode
    (Context.init .undef .undef) (by decide)⟩

/-- C1 counterexample: on a well-formed feature element whose property
child holds text followed by a CDATA section (two character-data children),
the child is classified complex and `readGeometryElement` dereferences a
`null` `firstElementChild` — the decode throws instead of degrading. -/
theorem decoder_throw_counterexample :
    readFeatureElement c1ThrowNode (Context.init .undef .undef) =
      .error () := rfl

/-- C4 (amended): a `boundedBy` child is never promoted to the designated
geometry name; the designated name is the local name of the *last* (not
first) complex child whose local name is not `boundedBy`; a feature element
whose complex children are all `boundedBy` gets no designated geometry. -/
theorem geometryName_last_complex :
    ∀ (node : XmlNode) (ctx : Context) (f : Feature) (ctx' : Context),
      readFeatureElement node ctx = .ok (f, ctx') →
      f.geometryName = designatedGeometryName node ∧
      f.geometryName ≠ some ("boundedBy") ∧
      ((∀ c ∈ node.elementChildren,
          isScalarChild c = false → c.localName = "boundedBy") →
        f.geometryName = none) := by
  intro node ctx f ctx' h
  have hgn := (readFeatureElement_ok_spec node ctx f ctx' h).2.2
  refine ⟨hgn, ?_, ?_⟩
  · rw [hgn]
    unfold designatedGeometryName
    cases hf : node.elementChildren.reverse.find?
        (fun c => !isScalarChild c && c.localName != "boundedBy") with
    | none => intro hx; exact Option.noConfusion hx
    | some c =>
      have hp := List.find?_some hf
      have hbb : c.localName ≠ "boundedBy" :=
        bne_iff_ne.mp (Bool.and_elim_right hp)
      intro hx
      have hx' : (if (c.localName == "") = true then (none : Option String)
          else some c.localName) = some ("boundedBy") := hx
      by_cases he : (c.localName == "") = true
      · rw [if_pos he] at hx'
        cases hx'
      · rw [if_neg he] at hx'
        exact hbb (Option.some.inj hx')
  · intro hall
    rw [hgn]
    unfold designatedGeometryName
    cases hf : node.elementChildren.reverse.find?
        (fun c => !isScalarChild c && c.localName != "boundedBy") with
    | none => rfl
    | some c =>
      exfalso
      have hp := List.find?_some hf
      have hmem : c ∈ node.elementChildren :=
        List.mem_reverse.mp (List.mem_of_find?_eq_some hf)
      have hsc : isScalarChild c = false := by
        have h1 := Bool.and_elim_left hp
        cases hb : isScalarChild c
        · rfl
        · rw [hb] at h1
          exact absurd h1 (by decide)
      have hbb : c.localName ≠ "boundedBy" :=
        bne_iff_ne.mp (Bool.and_elim_right hp)
      exact hbb (hall c hmem hsc)

/-- Witness for `geometryName_last_complex` on a concrete feature
element. -/
theorem geometryName_witness :
    readFeatureElement c4WitnessNode (Context.init .undef .undef) =
      .ok (⟨[(("geo"), .geomVal none)], some ("geo"), none⟩,
        Context.init .undef .undef) ∧
    (⟨[(("geo"), PropValue.geomVal none)], some ("geo"), none⟩ :
        Feature).geometryName = designatedGeometryName c4WitnessNode :=
  ⟨rfl, (geometryName_last_complex c4WitnessNode (Context.init .undef .undef)
    _ _ rfl).1⟩

/-- C4 counterexample: with two complex children `g1`, `g2` the designated
geometry name is `g2` — the last complex child's local name, not the
first's as claimed. -/
theorem geometryName_counterexample :
    (readFeatureElement c4CexNode (Context.init .undef .undef)).map
      (fun p => p.1.geometryName) = .ok (some ("g2")) ∧
    (some ("g2") : Option String) ≠ some ("g1") :=
  ⟨rfl, by decide⟩

lemma memberPusherLoop_keep (pns : List (String × List String))
    (cs : List XmlNode) :
    ∀ (ctx : Context) (acc : List Feature) (res : List Feature)
      (ctx' : Context),
      memberPusherLoop pns cs ctx acc = .ok (res, ctx') →
      ctx'.featureType = ctx.featureType ∧ ctx'.featureNS = ctx.featureNS := by
  induction cs with
  | nil =>
    intro ctx acc res ctx' h
    have hinj := Except.ok.inj h
    injection hinj with h1 h2
    subst h2
    exact ⟨rfl, rfl⟩
  | cons c rest ih =>
    intro ctx acc res ctx' h
    rw [memberPusherLoop] at h
    revert h
    cases lookupAssoc pns c.namespaceURI with
    | none => intro h; exact ih ctx acc res ctx' h
    | some names =>
      dsimp only
      by_cases hm : names.contains c.localName = true
      · rw [if_pos hm]
        cases hre : readFeatureElement c ctx with
        | error e => intro h; cases h
        | ok p =>
          obtain ⟨f, ctxm⟩ := p
          intro h
          have keep := readFeatureElement_ok_spec c ctx f ctxm hre
          have := ih ctxm _ res ctx' h
          exact ⟨this.1.trans keep.1, this.2.trans keep.2.1⟩
      · rw [if_neg hm]
        intro h
        exact ih ctx acc res ctx' h

lemma memberReplacerLoop_keep (pns : List (String × List String))
    (cs : List XmlNode) :
    ∀ (ctx : Context) (acc : FeaturesResult) (res : FeaturesResult)
      (ctx' : Context),
      memberReplacerLoop pns cs ctx acc = .ok (res, ctx') →
      ctx'.featureType = ctx.featureType ∧ ctx'.featureNS = ctx.featureNS := by
  induction cs with
  | nil =>
    intro ctx acc res ctx' h
    have hinj := Except.ok.inj h
    injection hinj with h1 h2
    subst h2
    exact ⟨rfl, rfl⟩
  | cons c rest ih =>
    intro ctx acc res ctx' h
    rw [memberReplacerLoop] at h
    revert h
    cases lookupAssoc pns c.namespaceURI with
    | none => intro h; exact ih ctx acc res ctx' h
    | some names =>
      dsimp only
      by_cases hm : names.contains c.localName = true
      · rw [if_pos hm]
        cases hre : readFeatureElement c ctx with
        | error e => intro h; cases h
        | ok p =>
          obtain ⟨f, ctxm⟩ := p
          intro h
          have keep := readFeatureElement_ok_spec c ctx f ctxm hre
          have := ih ctxm _ res ctx' h
          exact ⟨this.1.trans keep.1, this.2.trans keep.2.1⟩
      · rw [if_neg hm]
        intro h
        exact ih ctx acc res ctx' h

lemma membersBranch_eq_members (node : XmlNode) (ctx : Context)
    (hln : node.localName = "featureMembers")
    (hft : ctx.featureType.truthy = false) :
    readFeaturesMembersBranch node ctx =
      (match memberPusherLoop
          (buildFeatureParsers (discoverFeatureTypes node.children).2
            (discoverFeatureTypes node.children).1)
          node.elementChildren
          (storedCtx ctx (discoverFeatureTypes node.children)) [] with
        | .error e => .error e
        | .ok (fs, ctx') => .ok (.arr fs, ctx')) := by
  unfold readFeaturesMembersBranch
  rw [hln, hft]
  rfl

lemma membersBranch_single_eq (node : XmlNode) (ctx : Context)
    (hln : node.localName = "featureMember") :
    ∃ pns, readFeaturesMembersBranch node ctx =
      memberReplacerLoop pns node.elementChildren ctx .undef := by
  unfold readFeaturesMembersBranch
  rw [hln]
  cases hft : ctx.featureType.truthy with
  | false => exact ⟨_, rfl⟩
  | true => exact ⟨_, rfl⟩

lemma internal_ok_of_members (node : XmlNode) (ctx : Context)
    (res : FeaturesResult) (ctx' : Context)
    (hln : node.localName = "featureMembers" ∨
      node.localName = "featureMember")
    (h : readFeaturesInternal node ctx = .ok (res, ctx')) :
    ∃ r0, readFeaturesMembersBranch node ctx = .ok (r0, ctx') := by
  unfold readFeaturesInternal at h
  have hfc : (node.localName == "FeatureCollection") = false := by
    cases hln with
    | inl h' => rw [h']; decide
    | inr h' => rw [h']; decide
  rw [hfc] at h
  rw [if_neg (by simp)] at h
  unfold readFeaturesInternalAux at h
  have hmm : (node.localName == "featureMembers" ||
      node.localName == "featureMember") = true := by
    cases hln with
    | inl h' => rw [h']; decide
    | inr h' => rw [h']; decide
  rw [hmm] at h
  rw [if_pos rfl] at h
  revert h
  cases hb : readFeaturesMembersBranch node ctx with
  | error e => intro h; cases h
  | ok p =>
    obtain ⟨r0, c0⟩ := p
    cases r0 with
    | nullv =>
      intro h
      have hinj := Except.ok.inj h
      injection hinj with h1 h2
      subst h2
      exact ⟨_, rfl⟩
    | undef =>
      intro h
      have hinj := Except.ok.inj h
      injection hinj with h1 h2
      subst h2
      exact ⟨_, rfl⟩
    | feat f =>
      intro h
      have hinj := Except.ok.inj h
      injection hinj with h1 h2
      subst h2
      exact ⟨_, rfl⟩
    | arr fs =>
      intro h
      have hinj := Except.ok.inj h
      injection hinj with h1 h2
      subst h2
      exact ⟨_, rfl⟩

/-- C2: on the container (`featureMembers`) form with no declared feature
type, `readFeaturesInternal` stores the auto-discovered
`featureType` / `featureNS` into the parse context; on the singular
(`featureMember`) form the context's `featureType` / `featureNS` are left
untouched, so discovery re-runs per element. -/
theorem autoDiscovery_context_storage :
    ∀ (node : XmlNode) (ctx : Context) (res : FeaturesResult)
      (ctx' : Context),
      (node.localName = "featureMembers" → ctx.featureType.truthy = false →
        readFeaturesInternal node ctx = .ok (res, ctx') →
        ctx'.featureType = .arr (discoverFeatureTypes node.children).1 ∧
        ctx'.featureNS = .obj (discoverFeatureTypes node.children).2) ∧
      (node.localName = "featureMember" →
        readFeaturesInternal node ctx = .ok (res, ctx') →
        ctx'.featureType = ctx.featureType ∧
        ctx'.featureNS = ctx.featureNS) := by
  intro node ctx res ctx'
  constructor
  · intro hln hft h
    obtain ⟨r0, hb⟩ := internal_ok_of_members node ctx res ctx' (Or.inl hln) h
    rw [membersBranch_eq_members node ctx hln hft] at hb
    revert hb
    cases hmp : memberPusherLoop
        (buildFeatureParsers (discoverFeatureTypes node.children).2
          (discoverFeatureTypes node.children).1)
        node.elementChildren
        (storedCtx ctx (discoverFeatureTypes node.children)) [] with
    | error e => intro hb; cases hb
    | ok p =>
      obtain ⟨fs, ctxF⟩ := p
      intro hb
      have hinj := Except.ok.inj hb
      injection hinj with h1 h2
      subst h2
      have keep := memberPusherLoop_keep _ _ _ _ _ _ hmp
      exact ⟨keep.1, keep.2⟩
  · intro hln h
    obtain ⟨r0, hb⟩ := internal_ok_of_members node ctx res ctx' (Or.inr hln) h
    obtain ⟨pns, hpns⟩ := membersBranch_single_eq node ctx hln
    rw [hpns] at hb
    exact memberReplacerLoop_keep pns node.elementChildren ctx .undef r0 ctx' hb

/-- Witness for `autoDiscovery_context_storage` on a concrete
`featureMembers` container. -/
theorem autoDiscovery_witness :
    readFeaturesInternal c2Node (Context.init .undef .undef) =
      .ok (.arr [⟨[], none, none⟩],
        Context.mk (.arr [("p0:ta")]) (.obj [(("p0"), ("urn:a"))])
          none none) ∧
    ((Context.mk (.arr [("p0:ta")]) (.obj [(("p0"), ("urn:a"))])
        none none).featureType =
      .arr (discoverFeatureTypes c2Node.children).1 ∧
      (Context.mk (.arr [("p0:ta")]) (.obj [(("p0"), ("urn:a"))])
        none none).featureNS =
      .obj (discoverFeatureTypes c2Node.children).2) :=
  ⟨rfl, (autoDiscovery_context_storage c2Node (Context.init .undef .undef)
    (.arr [⟨[], none, none⟩])
    (Context.mk (.arr [("p0:ta")]) (.obj [(("p0"), ("urn:a"))])
      none none)).1 rfl rfl rfl⟩

/-- C10 (amended): `readFeaturesFromNode` never returns `null` or
`undefined`: the internal result is `undefined` for a singular
`featureMember` with no matching child (it is seeded with `undefined` and
the final coercion only tests strict equality with `null`), and the public
`features || []` coercion maps any falsy internal result to the empty
array; but a `featureMember` with a matching child yields the single
decoded `Feature` object itself, not an array. -/
theorem readFeaturesFromNode_no_null :
    (∀ (ft : FTVal) (ns : NSVal) (node : XmlNode) (r : FeaturesResult),
      readFeaturesFromNode ft ns node = .ok r →
      r ≠ .undef ∧ r ≠ .nullv) ∧
    readFeaturesInternal c10UndefNode
      (Context.init (.str ("x")) (.str ("urn:x"))) =
      .ok (.undef, Context.init (.str ("x")) (.str ("urn:x"))) ∧
    readFeaturesFromNode (.str ("x")) (.str ("urn:x")) c10UndefNode =
      .ok (.arr []) := by
  refine ⟨?_, rfl, rfl⟩
  intro ft ns node r h
  unfold readFeaturesFromNode at h
  revert h
  cases hI : readFeaturesInternal node (Context.init ft ns) with
  | error e => intro h; cases h
  | ok p =>
    obtain ⟨res, c⟩ := p
    intro h
    have hr := Except.ok.inj h
    subst hr
    cases res <;>
      exact ⟨fun hx => FeaturesResult.noConfusion hx,
        fun hx => FeaturesResult.noConfusion hx⟩

/-- Witness for `readFeaturesFromNode_no_null` at a concrete node. -/
theorem readFeaturesFromNode_no_null_witness :
    readFeaturesFromNode (.str ("x")) (.str ("urn:x")) c10UndefNode =
      .ok (.arr []) ∧
    ((.arr [] : FeaturesResult) ≠ .undef ∧
      (.arr [] : FeaturesResult) ≠ .nullv) :=
  ⟨rfl, readFeaturesFromNode_no_null.1 (.str ("x")) (.str ("urn:x"))
    c10UndefNode (.arr []) rfl⟩

/-- C10 counterexample: a `featureMember` whose child matches the declared
feature type makes `readFeaturesFromNode` return the single `Feature`
object, not an array. -/
theorem readFeaturesFromNode_counterexample :
    readFeaturesFromNode (.str ("x")) (.str ("urn:x")) c10FeatNode =
      .ok (.feat ⟨[], none, none⟩) ∧
    (readFeaturesFromNode (.str ("x")) (.str ("urn:x")) c10FeatNode).map
      FeaturesResult.isArray = .ok false :=
  ⟨rfl, rfl⟩

/-- C8: `getLength` contributes 0 for `Point` and `MultiPoint`, sums the
segment distances of a `LineString`'s consecutive vertices, recurses over
`MultiLineString` and `GeometryCollection` members, and consequently a
collection holding two copies of the same line measures exactly twice the
single line. -/
theorem getLength_spec :
    ∀ (d : (ℚ × ℚ) → (ℚ × ℚ) → ℚ) (c a b : ℚ × ℚ)
      (ms cs l : List (ℚ × ℚ)),
      getLength d (.point c) = 0 ∧
      getLength d (.multiPoint ms) = 0 ∧
      getLength d (.lineString cs) = lineStringLength d cs ∧
      lineStringLength d (a :: b :: cs) =
        d a b + lineStringLength d (b :: cs) ∧
      getLength d (.multiLineString [l, l]) =
        2 * getLength d (.lineString l) ∧
      getLength d (.geometryCollection [.lineString l, .lineString l]) =
        2 * getLength d (.lineString l) := by
  intro d c a b ms cs l
  refine ⟨rfl, rfl, rfl, rfl, ?_, ?_⟩
  · simp [getLength]
    ring
  · simp [getLength, getLengthList]
    ring
